import Mathlib

/-!
Verification of the `three-d-asset` core: the RGBA color codec
(`src/prelude/color.rs`) and the identity-based material deduplication on the
asset graph (`src/lib.rs`).

Machine integers are embedded as `Nat`; the Rust `as u8` truncating cast is
written as `% 256` at each cast site.  Every packed value stays below `2 ^ 32`,
so the `usize` arithmetic in the source never wraps and is embedded without a
modulus.  Fallible conversions return `Except`.
-/

/-- Color with a red, green, blue and alpha component, each an 8-bit byte
(`pub struct Color { r: u8, g: u8, b: u8, a: u8 }`). -/
structure Color where
  r : Nat
  g : Nat
  b : Nat
  a : Nat
deriving DecidableEq

/-- Well-formedness of a `Color`: every component fits in a byte, as the Rust
`u8` field type guarantees. -/
def Color.Wf (c : Color) : Prop :=
  c.r < 256 ∧ c.g < 256 ∧ c.b < 256 ∧ c.a < 256

instance (c : Color) : Decidable c.Wf := by
  unfold Color.Wf
  infer_instance

/-- Constructor `Color::new(r, g, b, a)`: exact, no validation. -/
def Color.new (r g b a : Nat) : Color :=
  { r := r, g := g, b := b, a := a }

/-- Constructor `Color::new_opaque(r, g, b)`: alpha fixed to 255. -/
def Color.newOpaque (r g b : Nat) : Color :=
  { r := r, g := g, b := b, a := 255 }

/-- Constant `Color::WHITE`. -/
def Color.WHITE : Color := Color.newOpaque 255 255 255

/-- Implementation of `Default for Color`: returns `Color::WHITE`. -/
def Color.defaultColor : Color := Color.WHITE

/-- Constructor `Color::from_rgb_slice(rgba: &[f32; 3])`.  The red, green and
blue bytes are produced by the f32 computation `(rgba[i] * 255.0) as u8`, which
is floating-point and is therefore abstracted as the parameter `byteOfFloat`;
the alpha byte is filled from `..Default::default()`, i.e. from
`Color.defaultColor`. -/
def Color.from_rgb_slice {α : Type} (byteOfFloat : α → Nat) (rgba : α × α × α) :
    Color :=
  { r := byteOfFloat rgba.1
    g := byteOfFloat rgba.2.1
    b := byteOfFloat rgba.2.2
    a := Color.defaultColor.a }

/-- Error enum `ColorConversionError` raised while converting to a color. -/
inductive ColorConversionError where
  | Overflow
deriving DecidableEq

/-- Implementation of `TryFrom<usize> for Color`: reject any value at or above
`0xFF_FF_FF_FF` with `Overflow`, otherwise extract the four bytes by masking
and shifting (each `as u8` cast embedded as `% 256`). -/
def colorTryFromUsize (value : Nat) : Except ColorConversionError Color :=
  if 0xFFFFFFFF ≤ value then
    Except.error ColorConversionError.Overflow
  else
    let r := ((value &&& 0xFF000000) >>> 24) % 256
    let g := ((value &&& 0x00FF0000) >>> 16) % 256
    let b := ((value &&& 0x0000FF00) >>> 8) % 256
    let a := ((value &&& 0x000000FF) >>> 0) % 256
    Except.ok (Color.new r g b a)

/-- Implementation of `From<Color> for usize`: or the four bytes into one
integer, red highest. -/
def usizeFromColor (c : Color) : Nat :=
  let i : Nat := 0
  let i := i ||| (c.r <<< 24)
  let i := i ||| (c.g <<< 16)
  let i := i ||| (c.b <<< 8)
  let i := i ||| (c.a <<< 0)
  i

/-- C1: decoding a packed integer fails with `Overflow` exactly when the value
is at least `0xFFFFFFFF`, and succeeds otherwise; encoding opaque white
`(255,255,255,255)` and decoding fails with `Overflow`, while
`(255,255,255,254)` survives the round trip unchanged. -/
theorem color_decode_overflow_boundary :
    (∀ v : Nat,
      (colorTryFromUsize v = Except.error ColorConversionError.Overflow ↔
        0xFFFFFFFF ≤ v) ∧
      ((colorTryFromUsize v).isOk = true ↔ v < 0xFFFFFFFF)) ∧
    colorTryFromUsize (usizeFromColor (Color.new 255 255 255 255)) =
      Except.error ColorConversionError.Overflow ∧
    colorTryFromUsize (usizeFromColor (Color.new 255 255 255 254)) =
      Except.ok (Color.new 255 255 255 254) := by
  refine ⟨fun v => ?_, by rfl, by rfl⟩
  unfold colorTryFromUsize
  by_cases h : 0xFFFFFFFF ≤ v
  · rw [if_pos h]
    constructor
    · simp [h]
    · simp only [Except.isOk, Except.toBool]
      constructor
      · intro he
        simp at he
      · intro hv
        exact absurd hv (by omega)
  · rw [if_neg h]
    constructor
    · constructor
      · intro he
        simp at he
      · intro hv
        exact absurd hv h
    · simp only [Except.isOk, Except.toBool]
      constructor
      · intro _
        omega
      · intro _
        trivial

/-- C9: the default color is opaque white `(255,255,255,255)`, and
`new_opaque` always sets alpha to 255. -/
theorem color_default_opaque_white :
    Color.defaultColor = Color.new 255 255 255 255 ∧
    ∀ r g b : Nat, (Color.newOpaque r g b).a = 255 := by
  exact ⟨rfl, fun _ _ _ => rfl⟩

/-- C10: `from_rgb_slice` fills the alpha channel from the default color,
which is opaque white, so every color it produces is fully opaque, whatever
the float-to-byte conversion does on the three given components. -/
theorem from_rgb_slice_alpha_opaque :
    ∀ (α : Type) (byteOfFloat : α → Nat) (rgba : α × α × α),
      (Color.from_rgb_slice byteOfFloat rgba).a = 255 := by
  intro α byteOfFloat rgba
  rfl

/-- Helper: extracting a bit field by mask-then-shift equals shift-then-mod. -/
theorem and_mask_shiftRight (v k n : Nat) :
    (v &&& ((2 ^ n - 1) <<< k)) >>> k = (v >>> k) % 2 ^ n := by
  apply Nat.eq_of_testBit_eq
  intro j
  simp only [Nat.testBit_shiftRight, Nat.testBit_and, Nat.testBit_shiftLeft,
    Nat.testBit_mod_two_pow, Nat.testBit_two_pow_sub_one]
  have h1 : k ≤ k + j := Nat.le_add_right k j
  have h2 : k + j - k = j := by omega
  simp [h1, h2, Bool.and_comm]

/-- Helper: the packed encoding of a well-formed color, as plain
arithmetic on its bytes. -/
theorem usizeFromColor_eq_arith (c : Color) (h : c.Wf) :
    usizeFromColor c = c.r * 2 ^ 24 + c.g * 2 ^ 16 + c.b * 2 ^ 8 + c.a := by
  obtain ⟨hr, hg, hb, ha⟩ := h
  unfold usizeFromColor
  simp only [Nat.zero_or, Nat.shiftLeft_eq, Nat.pow_zero, Nat.mul_one]
  have e1 : c.r * 2 ^ 24 ||| c.g * 2 ^ 16 = c.r * 2 ^ 24 + c.g * 2 ^ 16 := by
    have hlt : c.g * 2 ^ 16 < 2 ^ 24 := by omega
    calc c.r * 2 ^ 24 ||| c.g * 2 ^ 16
        = 2 ^ 24 * c.r ||| c.g * 2 ^ 16 := by rw [Nat.mul_comm]
      _ = 2 ^ 24 * c.r + c.g * 2 ^ 16 := (Nat.mul_add_lt_is_or hlt c.r).symm
      _ = c.r * 2 ^ 24 + c.g * 2 ^ 16 := by rw [Nat.mul_comm]
  have e2 : c.r * 2 ^ 24 + c.g * 2 ^ 16 ||| c.b * 2 ^ 8 =
      c.r * 2 ^ 24 + c.g * 2 ^ 16 + c.b * 2 ^ 8 := by
    have hf : c.r * 2 ^ 24 + c.g * 2 ^ 16 = 2 ^ 16 * (c.r * 2 ^ 8 + c.g) := by
      ring
    have hlt : c.b * 2 ^ 8 < 2 ^ 16 := by omega
    calc c.r * 2 ^ 24 + c.g * 2 ^ 16 ||| c.b * 2 ^ 8
        = 2 ^ 16 * (c.r * 2 ^ 8 + c.g) ||| c.b * 2 ^ 8 := by rw [hf]
      _ = 2 ^ 16 * (c.r * 2 ^ 8 + c.g) + c.b * 2 ^ 8 :=
          (Nat.mul_add_lt_is_or hlt _).symm
      _ = c.r * 2 ^ 24 + c.g * 2 ^ 16 + c.b * 2 ^ 8 := by ring
  have e3 : c.r * 2 ^ 24 + c.g * 2 ^ 16 + c.b * 2 ^ 8 ||| c.a =
      c.r * 2 ^ 24 + c.g * 2 ^ 16 + c.b * 2 ^ 8 + c.a := by
    have hf : c.r * 2 ^ 24 + c.g * 2 ^ 16 + c.b * 2 ^ 8 =
        2 ^ 8 * (c.r * 2 ^ 16 + c.g * 2 ^ 8 + c.b) := by ring
    have hlt : c.a < 2 ^ 8 := by omega
    calc c.r * 2 ^ 24 + c.g * 2 ^ 16 + c.b * 2 ^ 8 ||| c.a
        = 2 ^ 8 * (c.r * 2 ^ 16 + c.g * 2 ^ 8 + c.b) ||| c.a := by rw [hf]
      _ = 2 ^ 8 * (c.r * 2 ^ 16 + c.g * 2 ^ 8 + c.b) + c.a :=
          (Nat.mul_add_lt_is_or hlt _).symm
      _ = c.r * 2 ^ 24 + c.g * 2 ^ 16 + c.b * 2 ^ 8 + c.a := by ring
  rw [e1, e2, e3]

/-- Helper: an in-range value decodes to the color whose bytes are the four
base-256 digits of the value. -/
theorem colorTryFromUsize_of_lt (v : Nat) (h : v < 0xFFFFFFFF) :
    colorTryFromUsize v = Except.ok (Color.new
      (v / 2 ^ 24 % 2 ^ 8) (v / 2 ^ 16 % 2 ^ 8) (v / 2 ^ 8 % 2 ^ 8)
      (v % 2 ^ 8)) := by
  unfold colorTryFromUsize
  rw [if_neg (by omega)]
  have c1 : ((v &&& 0xFF000000) >>> 24) % 256 = v / 2 ^ 24 % 2 ^ 8 := by
    rw [show (0xFF000000 : Nat) = (2 ^ 8 - 1) <<< 24 from by decide,
      and_mask_shiftRight, Nat.shiftRight_eq_div_pow]
    omega
  have c2 : ((v &&& 0x00FF0000) >>> 16) % 256 = v / 2 ^ 16 % 2 ^ 8 := by
    rw [show (0x00FF0000 : Nat) = (2 ^ 8 - 1) <<< 16 from by decide,
      and_mask_shiftRight, Nat.shiftRight_eq_div_pow]
    omega
  have c3 : ((v &&& 0x0000FF00) >>> 8) % 256 = v / 2 ^ 8 % 2 ^ 8 := by
    rw [show (0x0000FF00 : Nat) = (2 ^ 8 - 1) <<< 8 from by decide,
      and_mask_shiftRight, Nat.shiftRight_eq_div_pow]
    omega
  have c4 : ((v &&& 0x000000FF) >>> 0) % 256 = v % 2 ^ 8 := by
    rw [show (0x000000FF : Nat) = (2 ^ 8 - 1) <<< 0 from by decide,
      and_mask_shiftRight, Nat.shiftRight_zero]
    omega
  rw [c1, c2, c3, c4]

/-- C2: every integer in `[0, 0xFFFFFFFE]` decodes successfully into a color,
and re-encoding that color yields the original integer. -/
theorem color_roundtrip_usize (i : Nat) (h : i ≤ 0xFFFFFFFE) :
    Except.map usizeFromColor (colorTryFromUsize i) = Except.ok i := by
  rw [colorTryFromUsize_of_lt i (by omega)]
  show Except.ok (usizeFromColor _) = Except.ok i
  congr 1
  rw [usizeFromColor_eq_arith]
  · simp only [Color.new]
    omega
  · refine ⟨?_, ?_, ?_, ?_⟩ <;> simp only [Color.new] <;> omega

/-- Witness for C2 at the topmost decodable value `0xFFFFFFFE`. -/
theorem color_roundtrip_usize_witness :
    (0xFFFFFFFE : Nat) ≤ 0xFFFFFFFE ∧
    Except.map usizeFromColor (colorTryFromUsize 0xFFFFFFFE) =
      Except.ok 0xFFFFFFFE :=
  ⟨by decide, color_roundtrip_usize 0xFFFFFFFE (by decide)⟩

/-- C3: encoding a color places red in bits 31-24, green in 23-16, blue in
15-8 and alpha in 7-0, i.e. it equals `r*2^24 + g*2^16 + b*2^8 + a`; and a
successful decode recovers each byte by masking and shifting those same
positions. -/
theorem color_pack_layout :
    (∀ c : Color, c.Wf →
      usizeFromColor c = c.r * 2 ^ 24 + c.g * 2 ^ 16 + c.b * 2 ^ 8 + c.a) ∧
    (∀ (v : Nat) (c : Color), colorTryFromUsize v = Except.ok c →
      c.r = (v &&& 0xFF000000) >>> 24 ∧
      c.g = (v &&& 0x00FF0000) >>> 16 ∧
      c.b = (v &&& 0x0000FF00) >>> 8 ∧
      c.a = v &&& 0x000000FF) := by
  constructor
  · exact usizeFromColor_eq_arith
  · intro v c h
    unfold colorTryFromUsize at h
    by_cases hv : 0xFFFFFFFF ≤ v
    · rw [if_pos hv] at h
      exact absurd h (by simp)
    · rw [if_neg hv] at h
      simp only [Except.ok.injEq] at h
      subst h
      refine ⟨?_, ?_, ?_, ?_⟩
      · show ((v &&& 0xFF000000) >>> 24) % 256 = (v &&& 0xFF000000) >>> 24
        rw [show (0xFF000000 : Nat) = (2 ^ 8 - 1) <<< 24 from by decide,
          and_mask_shiftRight]
        omega
      · show ((v &&& 0x00FF0000) >>> 16) % 256 = (v &&& 0x00FF0000) >>> 16
        rw [show (0x00FF0000 : Nat) = (2 ^ 8 - 1) <<< 16 from by decide,
          and_mask_shiftRight]
        omega
      · show ((v &&& 0x0000FF00) >>> 8) % 256 = (v &&& 0x0000FF00) >>> 8
        rw [show (0x0000FF00 : Nat) = (2 ^ 8 - 1) <<< 8 from by decide,
          and_mask_shiftRight]
        omega
      · show ((v &&& 0x000000FF) >>> 0) % 256 = v &&& 0x000000FF
        rw [Nat.shiftRight_zero,
          show (0x000000FF : Nat) = 2 ^ 8 - 1 from by decide,
          Nat.and_pow_two_sub_one_eq_mod]
        omega

/-- Witness for C3: the encode formula at `Color(1,2,3,4)` and the decode
byte extraction at `0x0A0B0C0D`. -/
theorem color_pack_layout_witness :
    (Color.Wf (Color.new 1 2 3 4) ∧
      usizeFromColor (Color.new 1 2 3 4) =
        1 * 2 ^ 24 + 2 * 2 ^ 16 + 3 * 2 ^ 8 + 4) ∧
    (colorTryFromUsize 0x0A0B0C0D = Except.ok (Color.new 10 11 12 13) ∧
      (Color.new 10 11 12 13).r = (0x0A0B0C0D &&& 0xFF000000) >>> 24 ∧
      (Color.new 10 11 12 13).g = (0x0A0B0C0D &&& 0x00FF0000) >>> 16 ∧
      (Color.new 10 11 12 13).b = (0x0A0B0C0D &&& 0x0000FF00) >>> 8 ∧
      (Color.new 10 11 12 13).a = 0x0A0B0C0D &&& 0x000000FF) :=
  ⟨⟨by decide, color_pack_layout.1 (Color.new 1 2 3 4) (by decide)⟩,
    by rfl, color_pack_layout.2 0x0A0B0C0D (Color.new 10 11 12 13) (by rfl)⟩

/-- Modelled from the spec: `PbrMaterial` (its file `src/material.rs` is not
included); the spec treats it as a shared, possibly-reused appearance
descriptor, compared by value only through its fields, so a single opaque
payload field stands for all of them. -/
structure PbrMaterial where
  descriptor : Nat
deriving DecidableEq

/-- Modelled from the spec: a shared-ownership reference
(`Rc<PbrMaterial>`).  Identity of the underlying allocation is embedded as a
stable instance id, as the spec's design notes prescribe for languages
without raw pointer identity; `val` is the referenced material value. -/
structure RcMaterial where
  id : Nat
  val : PbrMaterial
deriving DecidableEq

/-- Embedding of `Rc::ptr_eq`: two references are the same instance exactly
when their instance ids agree. -/
def rcPtrEq (x y : RcMaterial) : Bool :=
  x.id == y.id

/-- Modelled from the spec: a geometry entry (`TriMesh`, from the missing
`src/geometry.rs`) holds an optional shared reference to a material
(`pub material: Option<Rc<PbrMaterial>>`), the only field `materials()`
reads. -/
structure TriMesh where
  material : Option RcMaterial
deriving DecidableEq

/-- Modelled from the spec: an animation track (`KeyFrames`, from the missing
`src/animation.rs`), opaque to the deduplication query. -/
structure KeyFrames where
  track : Nat
deriving DecidableEq

/-- Struct `Model`: a name plus an ordered sequence of geometry entries. -/
structure Model where
  name : String
  geometries : List TriMesh
deriving DecidableEq

/-- Struct `Scene`: ordered animation tracks plus ordered models. -/
structure Scene where
  animations : List KeyFrames
  models : List Model
deriving DecidableEq

/-- Loop body of `Model::materials` / `Scene::materials`: skip `None`
references, and push a referenced material unless an identity-equal one is
already in the accumulator. -/
def matStep (materials : List RcMaterial) (mat : Option RcMaterial) :
    List RcMaterial :=
  match mat with
  | some mat =>
    if materials.any (fun m => rcPtrEq m mat) then materials
    else materials ++ [mat]
  | none => materials

/-- Implementation of `Model::materials`: fold the loop body over the
material references of the geometry entries, in entry order. -/
def Model.materials (m : Model) : List RcMaterial :=
  (m.geometries.map (fun g => g.material)).foldl matStep []

/-- Implementation of `Scene::materials`: the same fold over the entries of
all models, flattened in model order. -/
def Scene.materials (s : Scene) : List RcMaterial :=
  ((s.models.flatMap (fun m => m.geometries)).map (fun g => g.material)).foldl
    matStep []

/-- Material references of a sequence of geometry entries, in entry order,
entries without a reference skipped. -/
def materialRefs (entries : List TriMesh) : List RcMaterial :=
  entries.filterMap (fun g => g.material)

/-- Specification-side deduplication: keep the first occurrence of each
instance id, tracking already-seen ids in `seen`. -/
def dedupKeepFirst : List Nat → List RcMaterial → List RcMaterial
  | _, [] => []
  | seen, x :: xs =>
    if x.id ∈ seen then dedupKeepFirst seen xs
    else x :: dedupKeepFirst (x.id :: seen) xs

/-- Specification-side contract of the deduplication query, following the
spec's words: the distinct referenced material instances, in
first-occurrence order. -/
def materialsSpec (entries : List TriMesh) : List RcMaterial :=
  dedupKeepFirst [] (materialRefs entries)

/-- Sharing discipline of `Rc`: within one entry sequence, references with
the same instance id are the same reference (an id determines the value it
points at). -/
def sharedWf (entries : List TriMesh) : Prop :=
  ∀ x ∈ materialRefs entries, ∀ y ∈ materialRefs entries,
    x.id = y.id → x = y

instance (entries : List TriMesh) : Decidable (sharedWf entries) := by
  unfold sharedWf
  infer_instance

/-- Helper: the accumulator membership test of the source is the id
membership test of the specification. -/
theorem any_rcPtrEq (acc : List RcMaterial) (x : RcMaterial) :
    acc.any (fun m => rcPtrEq m x) = true ↔
      x.id ∈ acc.map (fun m => m.id) := by
  simp only [rcPtrEq, List.any_eq_true, beq_iff_eq, List.mem_map]

/-- Helper: `dedupKeepFirst` only depends on the set of seen ids. -/
theorem dedupKeepFirst_congr (xs : List RcMaterial) :
    ∀ s1 s2 : List Nat, (∀ a : Nat, a ∈ s1 ↔ a ∈ s2) →
      dedupKeepFirst s1 xs = dedupKeepFirst s2 xs := by
  induction xs with
  | nil =>
    intro s1 s2 _
    rfl
  | cons x xs ih =>
    intro s1 s2 h
    simp only [dedupKeepFirst]
    by_cases hx : x.id ∈ s1
    · rw [if_pos hx, if_pos ((h x.id).mp hx), ih s1 s2 h]
    · rw [if_neg hx, if_neg (fun hc => hx ((h x.id).mpr hc)),
        ih (x.id :: s1) (x.id :: s2) (by intro a; simp [List.mem_cons, h a])]

/-- Helper: the source fold equals the accumulator followed by the
specification-side deduplication of the remaining references. -/
theorem foldl_matStep_eq (l : List (Option RcMaterial)) :
    ∀ acc : List RcMaterial,
      l.foldl matStep acc =
        acc ++ dedupKeepFirst (acc.map (fun m => m.id)) (l.filterMap id) := by
  induction l with
  | nil =>
    intro acc
    simp [dedupKeepFirst]
  | cons o l ih =>
    intro acc
    match o with
    | none =>
      simp only [List.foldl_cons, matStep, List.filterMap_cons, id]
      exact ih acc
    | some x =>
      simp only [List.foldl_cons, matStep, List.filterMap_cons, id]
      by_cases hx : x.id ∈ acc.map (fun m => m.id)
      · have hany : acc.any (fun m => rcPtrEq m x) = true :=
          (any_rcPtrEq acc x).mpr hx
        rw [hany]
        simp only [if_true]
        rw [ih acc]
        simp only [dedupKeepFirst]
        rw [if_pos hx]
      · have hany : ¬ acc.any (fun m => rcPtrEq m x) = true :=
          fun hc => hx ((any_rcPtrEq acc x).mp hc)
        simp only [hany, if_false, Bool.false_eq_true]
        rw [ih (acc ++ [x])]
        simp only [dedupKeepFirst]
        rw [if_neg hx, List.map_append]
        rw [dedupKeepFirst_congr (l.filterMap id)
          (acc.map (fun m => m.id) ++ [x].map (fun m => m.id))
          (x.id :: acc.map (fun m => m.id))
          (by intro a; simp [List.mem_append, List.mem_cons, or_comm])]
        simp [List.append_assoc]

/-- Helper: `Model::materials` refines the specification-side
first-occurrence deduplication of its entries. -/
theorem model_materials_eq_spec (m : Model) :
    Model.materials m = materialsSpec m.geometries := by
  unfold Model.materials materialsSpec materialRefs
  rw [foldl_matStep_eq]
  simp [List.filterMap_map, Function.comp]

/-- Helper: `Scene::materials` refines the specification-side
first-occurrence deduplication of the flattened entries. -/
theorem scene_materials_eq_spec (s : Scene) :
    Scene.materials s =
      materialsSpec (s.models.flatMap (fun m => m.geometries)) := by
  unfold Scene.materials materialsSpec materialRefs
  rw [foldl_matStep_eq]
  simp [List.filterMap_map, Function.comp]

/-- Helper: the deduplicated list avoids every already-seen id and carries
pairwise distinct ids. -/
theorem dedupKeepFirst_pairwise (l : List RcMaterial) :
    ∀ seen : List Nat,
      (∀ x ∈ dedupKeepFirst seen l, x.id ∉ seen) ∧
      (dedupKeepFirst seen l).Pairwise (fun x y => x.id ≠ y.id) := by
  induction l with
  | nil =>
    intro seen
    exact ⟨by simp [dedupKeepFirst], by simp [dedupKeepFirst]⟩
  | cons x xs ih =>
    intro seen
    simp only [dedupKeepFirst]
    by_cases hx : x.id ∈ seen
    · rw [if_pos hx]
      exact ih seen
    · rw [if_neg hx]
      obtain ⟨h1, h2⟩ := ih (x.id :: seen)
      constructor
      · intro y hy
        rcases List.mem_cons.mp hy with h | h
        · rw [h]
          exact hx
        · intro hc
          exact h1 y h (List.mem_cons_of_mem _ hc)
      · refine List.Pairwise.cons ?_ h2
        intro y hy hc
        exact h1 y hy (by rw [← hc]; exact List.mem_cons_self _ _)

/-- Helper: a reference whose id determines it uniquely among `l` and is not
yet seen survives deduplication. -/
theorem mem_dedupKeepFirst (x : RcMaterial) (l : List RcMaterial) :
    ∀ seen : List Nat, x ∈ l → (∀ y ∈ l, y.id = x.id → y = x) →
      x.id ∉ seen → x ∈ dedupKeepFirst seen l := by
  induction l with
  | nil =>
    intro seen h
    exact absurd h (by simp)
  | cons y ys ih =>
    intro seen hmem uniq hseen
    simp only [dedupKeepFirst]
    by_cases hy : y.id ∈ seen
    · rw [if_pos hy]
      by_cases hxy : x = y
      · exact absurd (hxy ▸ hy) hseen
      · exact ih seen ((List.mem_cons.mp hmem).resolve_left fun hc => hxy hc)
          (fun z hz => uniq z (List.mem_cons_of_mem _ hz)) hseen
    · rw [if_neg hy]
      by_cases hxy : x = y
      · rw [hxy]
        exact List.mem_cons_self _ _
      · refine List.mem_cons_of_mem _ (ih (y.id :: seen)
          ((List.mem_cons.mp hmem).resolve_left fun hc => hxy hc)
          (fun z hz => uniq z (List.mem_cons_of_mem _ hz)) ?_)
        intro hc
        rcases List.mem_cons.mp hc with hc1 | hc2
        · exact hxy (uniq y (List.mem_cons_self _ _) hc1.symm).symm
        · exact hseen hc2

/-- Helper: a referenced material appears in the deduplicated list, under
the sharing discipline. -/
theorem mem_materialsSpec_of_ref (entries : List TriMesh)
    (wf : sharedWf entries) (g : TriMesh) (hg : g ∈ entries)
    (mat : RcMaterial) (hm : g.material = some mat) :
    mat ∈ materialsSpec entries := by
  have hx : mat ∈ materialRefs entries := by
    unfold materialRefs
    exact List.mem_filterMap.mpr ⟨g, hg, hm⟩
  exact mem_dedupKeepFirst mat (materialRefs entries) [] hx
    (fun y hy hid => wf y hy mat hx hid) (by simp)


/-- Sample material A for the concrete deduplication tests. -/
def matA : RcMaterial :=
  { id := 1, val := { descriptor := 10 } }

/-- Sample material B for the concrete deduplication tests. -/
def matB : RcMaterial :=
  { id := 2, val := { descriptor := 20 } }

/-- Sample material C for the concrete deduplication tests. -/
def matC : RcMaterial :=
  { id := 3, val := { descriptor := 30 } }

/-- Sample material with the same field values as `matVal2` but a distinct
instance id. -/
def matVal1 : RcMaterial :=
  { id := 4, val := { descriptor := 7 } }

/-- Sample material with the same field values as `matVal1` but a distinct
instance id. -/
def matVal2 : RcMaterial :=
  { id := 5, val := { descriptor := 7 } }

/-- Geometry entry referencing a given material. -/
def entryOf (mat : RcMaterial) : TriMesh :=
  { material := some mat }

/-- Geometry entry without a material reference. -/
def entryNone : TriMesh :=
  { material := none }

/-- Sample model with entries referencing materials A, B, A and nothing. -/
def modelABA : Model :=
  { name := "model", geometries := [entryOf matA, entryOf matB,
    entryOf matA, entryNone] }

/-- Sample scene of two models with overlapping material references. -/
def sceneABBC : Scene :=
  { animations := [],
    models := [{ name := "first", geometries := [entryOf matA, entryOf matB] },
      { name := "second", geometries := [entryOf matB, entryOf matC] }] }

/-- Sample model whose two entries reference the value-equal but distinct
instances `matVal1` and `matVal2`. -/
def modelValPair : Model :=
  { name := "m", geometries := [entryOf matVal1, entryOf matVal2] }

/-- Sample scene containing only `modelValPair`. -/
def sceneValPair : Scene :=
  { animations := [], models := [modelValPair] }

/-- C4: `Model::materials` is exactly the first-occurrence deduplication of
the materials referenced by the geometry entries in sequence order — each
distinct instance once, ids pairwise distinct, entries without a reference
skipped — and on entries `[matA, matB, matA, none]` it returns
`[matA, matB]`. -/
theorem model_materials_first_occurrence :
    (∀ m : Model, Model.materials m = materialsSpec m.geometries) ∧
    (∀ m : Model,
      (Model.materials m).Pairwise (fun x y => x.id ≠ y.id)) ∧
    Model.materials modelABA = [matA, matB] := by
  refine ⟨model_materials_eq_spec, fun m => ?_, by decide⟩
  rw [model_materials_eq_spec m]
  exact (dedupKeepFirst_pairwise (materialRefs m.geometries) []).2

/-- C6: `Scene::materials` is exactly the first-occurrence deduplication of
the materials referenced across all models, scanning models in sequence
order and entries in order within each model, each distinct instance once;
on two models referencing `[matA, matB]` and `[matB, matC]` it returns
`[matA, matB, matC]`. -/
theorem scene_materials_first_occurrence :
    (∀ s : Scene, Scene.materials s =
      materialsSpec (s.models.flatMap (fun m => m.geometries))) ∧
    (∀ s : Scene,
      (Scene.materials s).Pairwise (fun x y => x.id ≠ y.id)) ∧
    Scene.materials sceneABBC = [matA, matB, matC] := by
  refine ⟨scene_materials_eq_spec, fun s => ?_, by decide⟩
  rw [scene_materials_eq_spec s]
  exact (dedupKeepFirst_pairwise
    (materialRefs (s.models.flatMap (fun m => m.geometries))) []).2

/-- C5: deduplication goes by instance identity, never by value equality:
value-equal materials behind distinct instances both stay in the result,
for models and for scenes. -/
theorem materials_dedup_by_identity :
    (∀ m : Model, sharedWf m.geometries →
      ∀ g1 ∈ m.geometries, ∀ g2 ∈ m.geometries,
        ∀ m1 m2 : RcMaterial,
          g1.material = some m1 → g2.material = some m2 →
          m1.val = m2.val → m1.id ≠ m2.id →
          m1 ∈ Model.materials m ∧ m2 ∈ Model.materials m) ∧
    (∀ s : Scene, sharedWf (s.models.flatMap (fun m => m.geometries)) →
      ∀ g1 ∈ s.models.flatMap (fun m => m.geometries),
        ∀ g2 ∈ s.models.flatMap (fun m => m.geometries),
          ∀ m1 m2 : RcMaterial,
            g1.material = some m1 → g2.material = some m2 →
            m1.val = m2.val → m1.id ≠ m2.id →
            m1 ∈ Scene.materials s ∧ m2 ∈ Scene.materials s) := by
  constructor
  · intro m wf g1 h1 g2 h2 m1 m2 e1 e2 _ _
    rw [model_materials_eq_spec m]
    exact ⟨mem_materialsSpec_of_ref m.geometries wf g1 h1 m1 e1,
      mem_materialsSpec_of_ref m.geometries wf g2 h2 m2 e2⟩
  · intro s wf g1 h1 g2 h2 m1 m2 e1 e2 _ _
    rw [scene_materials_eq_spec s]
    exact ⟨mem_materialsSpec_of_ref _ wf g1 h1 m1 e1,
      mem_materialsSpec_of_ref _ wf g2 h2 m2 e2⟩

/-- Witness for C5: the value-equal materials `matVal1` and `matVal2`
(distinct ids, equal fields) both appear in the deduplicated lists of
`modelValPair` and of `sceneValPair`. -/
theorem materials_dedup_by_identity_witness :
    (matVal1 ∈ Model.materials modelValPair ∧
      matVal2 ∈ Model.materials modelValPair) ∧
    (matVal1 ∈ Scene.materials sceneValPair ∧
      matVal2 ∈ Scene.materials sceneValPair) :=
  ⟨materials_dedup_by_identity.1 modelValPair (by decide)
      (entryOf matVal1) (by decide) (entryOf matVal2) (by decide)
      matVal1 matVal2 rfl rfl rfl (by decide),
    materials_dedup_by_identity.2 sceneValPair (by decide)
      (entryOf matVal1) (by decide) (entryOf matVal2) (by decide)
      matVal1 matVal2 rfl rfl rfl (by decide)⟩

/-- Explicit state-passing form of the borrowed-receiver call
`model.materials()`: the result together with the receiver after the call. -/
def Model.materialsCall (m : Model) : List RcMaterial × Model :=
  (Model.materials m, m)

/-- Explicit state-passing form of the borrowed-receiver call
`scene.materials()`: the result together with the receiver after the call. -/
def Scene.materialsCall (s : Scene) : List RcMaterial × Scene :=
  (Scene.materials s, s)

/-- C7: the deduplication query has no side effect on its receiver: after
the call, the model's name and geometry sequence and the scene's animation
and model sequences are unchanged. -/
theorem materials_query_no_side_effects :
    (∀ m : Model, (Model.materialsCall m).2.name = m.name ∧
      (Model.materialsCall m).2.geometries = m.geometries) ∧
    (∀ s : Scene, (Scene.materialsCall s).2.animations = s.animations ∧
      (Scene.materialsCall s).2.models = s.models) :=
  ⟨fun _ => ⟨rfl, rfl⟩, fun _ => ⟨rfl, rfl⟩⟩
